import Mathlib

/-!
Verification development for a developer-productivity log-analysis tool.

The development shallowly embeds the tool's core: the multi-format parsing
pipeline (JSON-per-line parser, vendor structured-text parser, parser
registry/orchestrator) and the metric aggregation engine (independent metric
calculators whose partial results are merged under type-directed rules), and
proves the documented behaviors about the embedding.

Modelling conventions:
- Python dicts are association lists in insertion order (updating an existing
  key keeps its position, a new key is appended), with no duplicate keys.
- Python heterogeneous values (JSON values, log-entry payloads, calculator
  outputs) are one inductive type Value; Python int maps to vInt, Python
  float to vRat (exact rational arithmetic in place of IEEE doubles).
- Python datetime is PyDateTime: a naive wall-clock reading in microseconds
  since 1970-01-01T00:00:00 plus an optional UTC-offset (None = naive).
- Fallible Python code (raising exceptions) returns Option.
-/

/-- A Python-style heterogeneous value: JSON values, log-entry payload values
and calculator result values. -/
inductive Value where
  | vNull
  | vBool (b : Bool)
  | vInt (n : Int)
  | vRat (q : Rat)
  | vStr (s : String)
  | vList (xs : List Value)
  | vDict (kvs : List (String × Value))

/-- A Python dict as an association list in insertion order. -/
abbrev Dict := List (String × Value)

/-- Python d[key] lookup / key membership probe: the first binding wins
(real dicts have no duplicate keys). -/
def dictGet? : Dict → String → Option Value
  | [], _ => none
  | (k, v) :: rest, key => if k = key then some v else dictGet? rest key

/-- Python key in d. -/
def dictContains (d : Dict) (key : String) : Bool :=
  (dictGet? d key).isSome

/-- Python d[key] = v: replace the value of an existing key in place,
otherwise append the new binding. -/
def dictSet : Dict → String → Value → Dict
  | [], key, v => [(key, v)]
  | (k, w) :: rest, key, v =>
      if k = key then (k, v) :: rest else (k, w) :: dictSet rest key v

/-- Whether a value is a Python dict (isinstance(v, dict)). -/
def Value.isDict : Value → Bool
  | .vDict _ => true
  | _ => false

/-! ## Aggregation engine (AnalyzerService) -/

/-- Python binary + on heterogeneous values; none models a raised
TypeError/ValueError. Numbers add (bool counts as int), strings and lists
concatenate, everything else raises. -/
def pyAdd : Value → Value → Option Value
  | .vInt a, .vInt b => some (.vInt (a + b))
  | .vInt a, .vRat b => some (.vRat (a + b))
  | .vRat a, .vInt b => some (.vRat (a + b))
  | .vRat a, .vRat b => some (.vRat (a + b))
  | .vBool a, .vInt b => some (.vInt ((if a then 1 else 0) + b))
  | .vInt a, .vBool b => some (.vInt (a + (if b then 1 else 0)))
  | .vBool a, .vBool b => some (.vInt ((if a then 1 else 0) + (if b then 1 else 0)))
  | .vBool a, .vRat b => some (.vRat ((if a then 1 else 0) + b))
  | .vRat a, .vBool b => some (.vRat (a + (if b then 1 else 0)))
  | .vStr a, .vStr b => some (.vStr (a ++ b))
  | .vList a, .vList b => some (.vList (a ++ b))
  | _, _ => none

/-- One iteration of the sub-key loop in AnalyzerService._merge_results for
the both-dicts case: where the sub-key exists in the aggregate's dict, the
values are added with Python +, falling back to overwrite when the addition
raises; a fresh sub-key is inserted. -/
def dictMergeStep (acc : Dict) (kv : String × Value) : Dict :=
  match dictGet? acc kv.1 with
  | some old => dictSet acc kv.1 ((pyAdd old kv.2).getD kv.2)
  | none => dictSet acc kv.1 kv.2

/-- Inner loop of AnalyzerService._merge_results for the both-dicts case:
merge the incoming keyed-counter dict into the aggregate's dict sub-key by
sub-key, in the incoming dict's iteration order. -/
def merge_dicts (agg : Dict) : Dict → Dict
  | [] => agg
  | kv :: rest => merge_dicts (dictMergeStep agg kv) rest

/-- One iteration of the key loop in AnalyzerService._merge_results: a new
key is inserted as-is; when both values are dicts they are merged
sub-key-wise; otherwise the incoming value replaces the aggregate's value. -/
def mergeStep (acc : Dict) (kv : String × Value) : Dict :=
  match dictGet? acc kv.1 with
  | none => dictSet acc kv.1 kv.2
  | some old =>
    match old, kv.2 with
    | .vDict od, .vDict vd => dictSet acc kv.1 (.vDict (merge_dicts od vd))
    | _, _ => dictSet acc kv.1 kv.2

/-- AnalyzerService._merge_results: merge one calculator's result into the
aggregate, key by key, in the result's iteration order. -/
def merge_results (aggregated : Dict) : Dict → Dict
  | [] => aggregated
  | kv :: rest => merge_results (mergeStep aggregated kv) rest

/-- The default-shaped aggregate seeded by AnalyzerService.analyze before any
calculator runs (Python 0 is vInt 0, 0.0 is vRat 0, {} is vDict [],
[] is vList []). -/
def defaultAggregated : Dict :=
  [("total_requests", .vInt 0),
   ("total_conversations", .vInt 0),
   ("avg_response_time_seconds", .vRat 0),
   ("fastest_response_time_seconds", .vRat 0),
   ("slowest_response_time_seconds", .vRat 0),
   ("total_characters_processed", .vInt 0),
   ("lines_of_code_generated", .vInt 0),
   ("lines_by_language", .vDict []),
   ("success_rate_percent", .vRat 0),
   ("tool_usage", .vDict []),
   ("peak_activity_periods", .vList []),
   ("daily_breakdown", .vDict [])]

/-- The declared metric keys, in the order they are seeded. -/
def metricKeys : List String := defaultAggregated.map Prod.fst

/-- A Python datetime: a naive wall-clock reading in microseconds since
1970-01-01T00:00:00, together with the tzinfo UTC offset in seconds
(none = naive datetime). -/
structure PyDateTime where
  wall : Int
  tz : Option Int
  deriving DecidableEq, Repr

/-- A parsed log entry (the normalized Event Record), as in models.LogEntry. -/
structure LogEntry where
  timestamp : PyDateTime
  event_type : String
  data : Dict
  raw_line : String
  source_file : String

/-- A metric calculator: consumes the entry list and produces a partial
result dict, or none when calculate raises an exception. -/
abbrev Calc := List LogEntry → Option Dict

/-- The calculator loop of AnalyzerService.analyze: run each calculator in
order over the in-progress aggregate, merging a successful result and
skipping (with a warning) a calculator that raised. -/
def runCalcLoop : List Calc → List LogEntry → Dict → Dict
  | [], _, agg => agg
  | c :: rest, entries, agg =>
      runCalcLoop rest entries
        (match c entries with
         | some result => merge_results agg result
         | none => agg)

/-- The aggregation of AnalyzerService.analyze: seed the default-shaped
aggregate, then run all calculators over it. -/
def runCalculators (calculators : List Calc) (entries : List LogEntry) : Dict :=
  runCalcLoop calculators entries defaultAggregated

/-! ## Date-range filtering (AnalyzerService.filter_by_date_range) -/

/-- datetime.replace(tzinfo=None) applied when the datetime is aware:
drop the offset, keep the wall-clock reading. -/
def normalizeNaive (d : PyDateTime) : PyDateTime :=
  if d.tz.isSome then { wall := d.wall, tz := none } else d

/-- AnalyzerService.filter_by_date_range: keep exactly the entries whose
timestamp lies between start_date and end_date inclusive, comparing naive
datetimes (timezone-aware readings are first stripped of their offset). -/
def filter_by_date_range (entries : List LogEntry)
    (start_date end_date : PyDateTime) : List LogEntry :=
  entries.filter (fun e =>
    decide ((normalizeNaive start_date).wall ≤ (normalizeNaive e.timestamp).wall) &&
    decide ((normalizeNaive e.timestamp).wall ≤ (normalizeNaive end_date).wall))

/-! ## Character and string utilities (Python str operations, modelled) -/

/-- ASCII decimal digit test. -/
def isDig (c : Char) : Bool := '0' ≤ c && c ≤ '9'

/-- Numeric value of an ASCII digit. -/
def digVal (c : Char) : Nat := c.toNat - 48

/-- Python str.strip / regex whitespace class, ASCII subset. -/
def isSpaceCh (c : Char) : Bool :=
  c = ' ' || c = '\t' || c = '\n' || c = '\x0d' || c = '\x0b' || c = '\x0c'

/-- Python str.strip over a character list. -/
def chTrim (cs : List Char) : List Char :=
  ((cs.dropWhile isSpaceCh).reverse.dropWhile isSpaceCh).reverse

/-- Regex word-character class, ASCII subset (the source's tokens are ASCII). -/
def isWordCh (c : Char) : Bool :=
  ('a' ≤ c && c ≤ 'z') || ('A' ≤ c && c ≤ 'Z') || isDig c || c = '_'

/-- Whether needle occurs at the head of hay. -/
def matchesAt : List Char → List Char → Bool
  | [], _ => true
  | _ :: _, [] => false
  | n :: ns, h :: hs => (n == h) && matchesAt ns hs

/-- Whether needle occurs anywhere in hay. -/
def strContainsAux : List Char → List Char → Bool
  | needle, [] => needle.isEmpty
  | needle, h :: hs => matchesAt needle (h :: hs) || strContainsAux needle hs

/-- Python needle in hay on strings. -/
def pyInStr (needle hay : String) : Bool := strContainsAux needle.data hay.data

/-- ASCII lower-casing of one character. -/
def lowerCh (c : Char) : Char :=
  if 'A' ≤ c && c ≤ 'Z' then Char.ofNat (c.toNat + 32) else c

/-- Python str.lower, ASCII subset. -/
def lowerStr (s : String) : String := ⟨s.data.map lowerCh⟩

/-- Read exactly n ASCII digits, returning their value and the rest. -/
def readDigitsN : Nat → List Char → Option (Nat × List Char)
  | 0, cs => some (0, cs)
  | _ + 1, [] => none
  | n + 1, c :: cs =>
      if isDig c then
        (readDigitsN n cs).map (fun p => (digVal c * 10 ^ n + p.1, p.2))
      else none

/-- Read one or more ASCII digits, returning their value, count and rest. -/
def readDigits1 (cs : List Char) : Option (Nat × Nat × List Char) :=
  let ds := cs.takeWhile isDig
  if ds.isEmpty then none
  else some (ds.foldl (fun acc c => acc * 10 + digVal c) 0, ds.length, cs.drop ds.length)

/-! ## Python float() on strings (modelled: finite decimal literals with an
optional exponent; the inf/nan spellings and underscore separators that
Python also accepts are not modelled). -/

/-- Python float(str) for a finite decimal literal, none models ValueError. -/
def parseFloatStr (s : String) : Option Rat :=
  let cs := chTrim s.data
  let (sign, cs) :=
    match cs with
    | '-' :: rest => ((-1 : Rat), rest)
    | '+' :: rest => ((1 : Rat), rest)
    | _ => ((1 : Rat), cs)
  let ip := cs.takeWhile isDig
  let cs1 := cs.drop ip.length
  let ipVal : Nat := ip.foldl (fun acc c => acc * 10 + digVal c) 0
  let (hasFrac, fracVal, fracLen, cs2) :=
    match cs1 with
    | '.' :: rest =>
        let fp := rest.takeWhile isDig
        (true, fp.foldl (fun acc c => acc * 10 + digVal c) 0, fp.length, rest.drop fp.length)
    | _ => (false, 0, 0, cs1)
  if ip.isEmpty && (!hasFrac || fracLen = 0) then none
  else
    let mant : Rat := (ipVal : Rat) + (fracVal : Rat) / (10 : Rat) ^ fracLen
    match cs2 with
    | [] => some (sign * mant)
    | e :: rest =>
        if e = 'e' || e = 'E' then
          let (esign, rest) :=
            match rest with
            | '-' :: r => (false, r)
            | '+' :: r => (true, r)
            | _ => (true, rest)
          match readDigits1 rest with
          | some (ev, _, []) =>
              some (sign * mant * (if esign then (10 : Rat) ^ ev else ((10 : Rat) ^ ev)⁻¹))
          | _ => none
        else none

/-- Python float(v) coercion as used by the calculators; none models a raised
TypeError/ValueError (bool is an int in Python). -/
def pyFloat? : Value → Option Rat
  | .vInt n => some n
  | .vRat q => some q
  | .vBool b => some (if b then 1 else 0)
  | .vStr s => parseFloatStr s
  | _ => none

/-! ## Response-time calculator (ResponseTimeCalculator.calculate) -/

/-- The accepted response-time samples: probe response_time first, else
response_time_seconds; coerce with float(); keep non-negative values only,
skipping entries whose value fails to coerce. -/
def response_times (entries : List LogEntry) : List Rat :=
  entries.filterMap (fun e =>
    match dictGet? e.data "response_time" with
    | some v =>
        match pyFloat? v with
        | some q => if 0 ≤ q then some q else none
        | none => none
    | none =>
        match dictGet? e.data "response_time_seconds" with
        | some v =>
            match pyFloat? v with
            | some q => if 0 ≤ q then some q else none
            | none => none
        | none => none)

/-- Python min over a nonempty list, as a fold from the first element. -/
def foldMin {α : Type} [LinearOrder α] (a : α) (l : List α) : α := l.foldl min a

/-- Python max over a nonempty list, as a fold from the first element. -/
def foldMax {α : Type} [LinearOrder α] (a : α) (l : List α) : α := l.foldl max a

/-- ResponseTimeCalculator.calculate: mean, min and max over the accepted
samples, all three zero when no valid sample exists. -/
def response_time_calculate (entries : List LogEntry) : Dict :=
  match response_times entries with
  | [] =>
      [("avg_response_time_seconds", .vRat 0),
       ("fastest_response_time_seconds", .vRat 0),
       ("slowest_response_time_seconds", .vRat 0)]
  | t :: rest =>
      [("avg_response_time_seconds",
        .vRat ((t :: rest).sum / ((t :: rest).length : Rat))),
       ("fastest_response_time_seconds", .vRat (foldMin t rest)),
       ("slowest_response_time_seconds", .vRat (foldMax t rest))]

/-! ## Activity-pattern calculator (ActivityPatternCalculator._identify_peak_periods) -/

/-- One hour in microseconds. -/
def hourUs : Int := 3600000000

/-- timestamp.replace(minute=0, second=0, microsecond=0): truncate a
wall-clock reading down to its hour (the tzinfo is untouched by replace and
is carried separately). -/
def hour_floor (t : Int) : Int := hourUs * (t / hourUs)

/-- The wall-clock reading of an entry's timestamp (a plain projection). -/
def entryWall (e : LogEntry) : Int := e.timestamp.wall

/-- The comparison key of a Python datetime: Python compares two naive
datetimes by their wall-clock fields and two aware datetimes by their
UTC-adjusted instants, so within either homogeneous class the order is the
order of this key (wall reading minus the UTC offset, offset 0 when naive).
Comparing a naive with an aware datetime raises TypeError and is handled
separately. -/
def pyDTKey (d : PyDateTime) : Int := d.wall - (d.tz.getD 0) * 1000000

/-- The comparison key of an entry's timestamp. -/
def entryKey (e : LogEntry) : Int := pyDTKey e.timestamp

/-- Whether the timestamps are uniformly aware or uniformly naive. When a
list of length at least 2 mixes the two, sorted(entries, key=timestamp)
compares a naive with an aware datetime and raises TypeError (a mixed list
always has such a comparison); a homogeneous list sorts without error. -/
def sameAwareness (entries : List LogEntry) : Bool :=
  entries.all (fun e => e.timestamp.tz.isSome) ||
    entries.all (fun e => e.timestamp.tz.isNone)

/-- Number of entries inside the 2-hour window whose start has comparison
key s: the source tests current_time <= entry.timestamp < window_end on
datetimes of one homogeneous class, which is this key comparison. The source
counts over the timestamp-sorted copy; the count of a filtered list is
permutation-invariant, so it is taken over the input order here. -/
def count_window (entries : List LogEntry) (s : Int) : Nat :=
  (entries.filter (fun e =>
    decide (s ≤ entryKey e) && decide (entryKey e < s + 2 * hourUs))).length

/-- sorted_entries[0]: the first entry with the minimal timestamp key (the
sort is stable, so ties keep the earlier entry). -/
def minKeyEntry (m : LogEntry) : List LogEntry → LogEntry
  | [] => m
  | e :: es => minKeyEntry (if entryKey e < entryKey m then e else m) es

/-- The latest timestamp key: sorted_entries[-1].timestamp is consulted only
through the comparison current_time <= max_time, i.e. through its key, the
list maximum of the keys. -/
def maxKeyW : List LogEntry → Int
  | [] => 0
  | e :: es => foldMax (entryKey e) (es.map entryKey)

/-- The initial current_time of the window loop:
min_time.replace(minute=0, second=0, microsecond=0) — the wall clock of
sorted_entries[0] truncated to its hour, with its tzinfo kept. -/
def anchorDT (entries : List LogEntry) : PyDateTime :=
  match entries with
  | [] => ⟨0, none⟩
  | e :: es =>
      ⟨hour_floor (minKeyEntry e es).timestamp.wall, (minKeyEntry e es).timestamp.tz⟩

/-- The comparison key of the initial current_time. -/
def anchor (entries : List LogEntry) : Int := pyDTKey (anchorDT entries)

/-- The keys of the candidate window start times: current_time steps one
hour per iteration (same tzinfo, so its key steps by one hour) while
current_time <= max_time, i.e. while its key does not exceed the maximal
key. -/
def window_starts (entries : List LogEntry) : List Int :=
  match entries with
  | [] => []
  | _ :: _ =>
      let a0 := anchor entries
      let n := ((maxKeyW entries - a0) / hourUs).toNat + 1
      (List.range n).map (fun (k : Nat) => a0 + (k : Int) * hourUs)

/-- The candidate windows with a positive count, as
(start datetime, end datetime, count) triples: the start datetime at key s
has wall s plus the anchor's offset and the anchor's tzinfo, and the end is
two hours of wall clock later with the same tzinfo. -/
def window_counts (entries : List LogEntry) : List (PyDateTime × PyDateTime × Nat) :=
  (window_starts entries).filterMap (fun s =>
    let c := count_window entries s
    if 0 < c then
      some (⟨s + ((anchorDT entries).tz.getD 0) * 1000000, (anchorDT entries).tz⟩,
        ⟨s + ((anchorDT entries).tz.getD 0) * 1000000 + 2 * hourUs,
          (anchorDT entries).tz⟩, c)
    else none)

/-- ActivityPatternCalculator._identify_peak_periods: on a naive/aware mix
the sorting step raises TypeError (none — the exception escapes calculate
and is caught at the aggregation level, so the calculator contributes
nothing); otherwise stably sort the candidate windows by count descending,
take the top 3, and drop the count. -/
def identify_peak_periods (entries : List LogEntry) :
    Option (List (PyDateTime × PyDateTime)) :=
  if sameAwareness entries then
    some ((((window_counts entries).mergeSort
      (fun a b => decide (b.2.2 ≤ a.2.2))).take 3).map (fun w => (w.1, w.2.1)))
  else none

/-! ## Calendar arithmetic and Python datetime construction -/

/-- Gregorian leap-year test. -/
def isLeap (y : Int) : Bool := y % 4 = 0 && (y % 100 ≠ 0 || y % 400 = 0)

/-- Days in a month of the proleptic Gregorian calendar. -/
def daysInMonth (y m : Int) : Int :=
  if m = 2 then (if isLeap y then 29 else 28)
  else if m = 4 || m = 6 || m = 9 || m = 11 then 30
  else 31

/-- Days from 1970-01-01 to the given civil date (standard civil-calendar
conversion; Lean's Int division is floor division for the positive divisors
used here). -/
def days_from_civil (y m d : Int) : Int :=
  let y' := if m ≤ 2 then y - 1 else y
  let era := y' / 400
  let yoe := y' - era * 400
  let mp := (m + 9) % 12
  let doy := (153 * mp + 2) / 5 + d - 1
  let doe := yoe * 365 + yoe / 4 - yoe / 100 + doy
  era * 146097 + doe - 719468

/-- Microseconds since 1970-01-01T00:00:00 of a civil date and time of day. -/
def microsOf (y mo d h mi s us : Int) : Int :=
  days_from_civil y mo d * 86400000000 +
    h * 3600000000 + mi * 60000000 + s * 1000000 + us

/-- Wall-clock microseconds of the smallest Python datetime (year 1). -/
def datetimeMinWall : Int := microsOf 1 1 1 0 0 0 0

/-- Wall-clock microseconds of the largest Python datetime (year 9999). -/
def datetimeMaxWall : Int := microsOf 9999 12 31 23 59 59 999999

/-- Read a fractional-second field of 1 to 6 digits, scaled to microseconds
(strptime/fromisoformat %f semantics). -/
def readFrac (cs : List Char) : Option (Nat × List Char) :=
  let ds := cs.takeWhile isDig
  if ds.isEmpty || 6 < ds.length then none
  else
    some ((ds.foldl (fun acc c => acc * 10 + digVal c) 0) * 10 ^ (6 - ds.length),
      cs.drop ds.length)

/-- Parse the time-of-day part HH:MM[:SS[.ffffff]] with an optional
[+-]HH:MM[:SS] offset; returns (microseconds into the day, offset seconds). -/
def parseIsoTime (cs : List Char) : Option (Int × Option Int) := do
  let (hh, cs) ← readDigitsN 2 cs
  if 23 < hh then none else
  match cs with
  | ':' :: cs => do
    let (mi, cs) ← readDigitsN 2 cs
    if 59 < mi then none else
    let (ss, frac, cs) ←
      match cs with
      | ':' :: cs' => do
          let (ss, cs') ← readDigitsN 2 cs'
          if 59 < ss then none else
          match cs' with
          | '.' :: cs'' => do
              let (fr, cs'') ← readFrac cs''
              pure (ss, fr, cs'')
          | _ => pure (ss, 0, cs')
      | _ => pure (0, 0, cs)
    let dayUs : Int := (hh : Int) * 3600000000 + (mi : Int) * 60000000 +
      (ss : Int) * 1000000 + (frac : Int)
    match cs with
    | [] => pure (dayUs, none)
    | c :: cs =>
        if c = '+' || c = '-' then do
          let (oh, cs) ← readDigitsN 2 cs
          match cs with
          | ':' :: cs => do
            let (om, cs) ← readDigitsN 2 cs
            if 23 < oh || 59 < om then none else
            let (os, cs) ←
              match cs with
              | ':' :: cs' => do
                  let (os, cs') ← readDigitsN 2 cs'
                  if 59 < os then none else pure (os, cs')
              | _ => pure (0, cs)
            match cs with
            | [] =>
                let mag : Int := (oh : Int) * 3600 + (om : Int) * 60 + (os : Int)
                pure (dayUs, some (if c = '-' then -mag else mag))
            | _ => none
          | _ => none
        else none
  | _ => none

/-- datetime.fromisoformat (modelled on the YYYY-MM-DD[ T]HH:MM[:SS[.f]]
[+-HH:MM[:SS]] shapes the tool feeds it; Python 3.11 accepts further rare
shapes that no code path here produces). none models ValueError. -/
def fromisoformat (s : String) : Option PyDateTime := do
  let cs := s.data
  let (y, cs) ← readDigitsN 4 cs
  match cs with
  | '-' :: cs => do
    let (mo, cs) ← readDigitsN 2 cs
    match cs with
    | '-' :: cs => do
      let (d, cs) ← readDigitsN 2 cs
      if mo < 1 || 12 < mo then none else
      if d < 1 || daysInMonth y mo < (d : Int) then none else
      match cs with
      | [] => pure ⟨microsOf y mo d 0 0 0 0, none⟩
      | sep :: cs =>
          if sep = 'T' || sep = ' ' then do
            let (dayUs, off) ← parseIsoTime cs
            pure ⟨microsOf y mo d 0 0 0 0 + dayUs, off⟩
          else none
    | _ => none
  | _ => none

/-- Python str.replace("Z", "+00:00") as applied before fromisoformat. -/
def replaceZ (s : String) : String :=
  ⟨s.data.foldr (fun c acc =>
    if c = 'Z' then '+' :: '0' :: '0' :: ':' :: '0' :: '0' :: acc else c :: acc) []⟩

/-- datetime.fromtimestamp: Unix seconds to a naive datetime, rounded to the
microsecond (the local timezone is modelled as UTC; none models the OSError
raised outside the representable datetime range). -/
def fromtimestamp (secs : Rat) : Option PyDateTime :=
  let us : Int := Rat.floor (secs * 1000000 + 1 / 2)
  if datetimeMinWall ≤ us && us ≤ datetimeMaxWall then some ⟨us, none⟩ else none

/-! ## JSON-line parser (JSONLogParser) -/

/-- Skip JSON insignificant whitespace. -/
def jsonSkipWs (cs : List Char) : List Char :=
  cs.dropWhile (fun c => c = ' ' || c = '\t' || c = '\n' || c = '\x0d')

/-- Consume an expected literal tail (rue / alse / ull). -/
def dropLit : List Char → List Char → Option (List Char)
  | [], cs => some cs
  | l :: ls, c :: cs => if c = l then dropLit ls cs else none
  | _ :: _, [] => none

/-- Parse a JSON string body after the opening quote (fuelled; \uXXXX is
mapped to the single code point, surrogate-pair combination is not
modelled). -/
def jsonParseString : Nat → List Char → List Char → Option (String × List Char)
  | 0, _, _ => none
  | _ + 1, [], _ => none
  | fuel + 1, c :: rest, acc =>
      if c = '"' then some (⟨acc.reverse⟩, rest)
      else if c = '\\' then
        match rest with
        | [] => none
        | e :: rest' =>
            if e = '"' then jsonParseString fuel rest' ('"' :: acc)
            else if e = '\\' then jsonParseString fuel rest' ('\\' :: acc)
            else if e = '/' then jsonParseString fuel rest' ('/' :: acc)
            else if e = 'b' then jsonParseString fuel rest' ('\x08' :: acc)
            else if e = 'f' then jsonParseString fuel rest' ('\x0c' :: acc)
            else if e = 'n' then jsonParseString fuel rest' ('\n' :: acc)
            else if e = 'r' then jsonParseString fuel rest' ('\x0d' :: acc)
            else if e = 't' then jsonParseString fuel rest' ('\t' :: acc)
            else if e = 'u' then
              match rest' with
              | h1 :: h2 :: h3 :: h4 :: rest'' =>
                  let hexVal (h : Char) : Option Nat :=
                    if isDig h then some (digVal h)
                    else if 'a' ≤ h && h ≤ 'f' then some (h.toNat - 87)
                    else if 'A' ≤ h && h ≤ 'F' then some (h.toNat - 55)
                    else none
                  match hexVal h1, hexVal h2, hexVal h3, hexVal h4 with
                  | some a, some b, some c', some d =>
                      jsonParseString fuel rest''
                        (Char.ofNat (a * 4096 + b * 256 + c' * 16 + d) :: acc)
                  | _, _, _, _ => none
              | _ => none
            else none
      else if c.toNat < 32 then none
      else jsonParseString fuel rest (c :: acc)

/-- Parse a JSON number (strict JSON grammar; Python yields int for pure
integer syntax and float otherwise — vInt versus vRat here). -/
def jsonParseNumber (cs : List Char) : Option (Value × List Char) :=
  let (neg, cs1) := match cs with | '-' :: r => (true, r) | _ => (false, cs)
  match cs1 with
  | [] => none
  | c :: _ =>
      if !isDig c then none
      else
        let ds := cs1.takeWhile isDig
        if 1 < ds.length && c = '0' then none
        else
          let ipVal : Nat := ds.foldl (fun acc ch => acc * 10 + digVal ch) 0
          let cs2 := cs1.drop ds.length
          let (hasFrac, fracVal, fracLen, cs3) :=
            match cs2 with
            | '.' :: r =>
                let fs := r.takeWhile isDig
                (true, fs.foldl (fun acc ch => acc * 10 + digVal ch) 0,
                  fs.length, r.drop fs.length)
            | _ => (false, 0, 0, cs2)
          if hasFrac && fracLen = 0 then none
          else
            let (hasExp, expOk, expPos, expVal, cs4) :=
              match cs3 with
              | e :: r =>
                  if e = 'e' || e = 'E' then
                    let (pos, r1) :=
                      match r with
                      | '-' :: r' => (false, r')
                      | '+' :: r' => (true, r')
                      | _ => (true, r)
                    let es := r1.takeWhile isDig
                    if es.isEmpty then (true, false, true, 0, r1)
                    else (true, true, pos,
                      es.foldl (fun acc ch => acc * 10 + digVal ch) 0,
                      r1.drop es.length)
                  else (false, true, true, 0, cs3)
              | [] => (false, true, true, 0, cs3)
            if hasExp && !expOk then none
            else if !hasFrac && !hasExp then
              some (.vInt (if neg then -(ipVal : Int) else (ipVal : Int)), cs3)
            else
              let mant : Rat := (ipVal : Rat) + (fracVal : Rat) / (10 : Rat) ^ fracLen
              let scaled : Rat :=
                mant * (if expPos then (10 : Rat) ^ expVal else ((10 : Rat) ^ expVal)⁻¹)
              some (.vRat (if neg then -scaled else scaled), cs4)

mutual

/-- Parse one JSON value (json.loads grammar; the NaN/Infinity extensions
Python also accepts by default are not modelled). -/
def jsonParseValue : Nat → List Char → Option (Value × List Char)
  | 0, _ => none
  | fuel + 1, cs =>
      match jsonSkipWs cs with
      | [] => none
      | c :: rest =>
          if c = '\x7b' then
            match jsonSkipWs rest with
            | '\x7d' :: r => some (.vDict [], r)
            | r => (jsonParseMembers fuel r []).map (fun p => (Value.vDict p.1, p.2))
          else if c = '[' then
            match jsonSkipWs rest with
            | ']' :: r => some (.vList [], r)
            | r => (jsonParseElems fuel r []).map (fun p => (Value.vList p.1, p.2))
          else if c = '"' then
            (jsonParseString (fuel + 1) rest []).map (fun p => (Value.vStr p.1, p.2))
          else if c = 't' then (dropLit ['r', 'u', 'e'] rest).map (Value.vBool true, ·)
          else if c = 'f' then
            (dropLit ['a', 'l', 's', 'e'] rest).map (Value.vBool false, ·)
          else if c = 'n' then (dropLit ['u', 'l', 'l'] rest).map (Value.vNull, ·)
          else if c = '-' || isDig c then jsonParseNumber (c :: rest)
          else none

/-- Parse the members of a JSON object, starting at a key (a repeated key
overwrites the earlier one's value in place, as in a Python dict). -/
def jsonParseMembers : Nat → List Char → List (String × Value) →
    Option (List (String × Value) × List Char)
  | 0, _, _ => none
  | fuel + 1, cs, acc =>
      match cs with
      | '"' :: rest => do
          let (k, r1) ← jsonParseString (fuel + 1) rest []
          match jsonSkipWs r1 with
          | ':' :: r2 => do
              let (v, r3) ← jsonParseValue fuel r2
              match jsonSkipWs r3 with
              | ',' :: r4 => jsonParseMembers fuel (jsonSkipWs r4) (dictSet acc k v)
              | '\x7d' :: r4 => some (dictSet acc k v, r4)
              | _ => none
          | _ => none
      | _ => none

/-- Parse the elements of a JSON array, starting at a value. -/
def jsonParseElems : Nat → List Char → List Value →
    Option (List Value × List Char)
  | 0, _, _ => none
  | fuel + 1, cs, acc => do
      let (v, r1) ← jsonParseValue fuel cs
      match jsonSkipWs r1 with
      | ',' :: r2 => jsonParseElems fuel r2 (acc ++ [v])
      | ']' :: r2 => some (acc ++ [v], r2)
      | _ => none

end

/-- json.loads on one line: a single JSON value with nothing but whitespace
around it; none models json.JSONDecodeError. -/
def jsonLoads (s : String) : Option Value :=
  match jsonParseValue (s.length + 1) s.data with
  | some (v, rest) => if (jsonSkipWs rest).isEmpty then some v else none
  | none => none

/-- Python str(v) of a payload value (exact for the str/int/bool/None values
log payloads carry; container and float renderings are placeholders never
exercised here). -/
def pyStr : Value → String
  | .vStr s => s
  | .vInt n => toString n
  | .vBool b => if b then "True" else "False"
  | .vNull => "None"
  | .vRat q => toString q
  | .vList _ => "[...]"
  | .vDict _ => "\x7b...\x7d"

/-- JSONLogParser._extract_timestamp: the value of one alias key, parsed —
a string goes through fromisoformat after the Z-to-offset rewrite, a number
is Unix seconds, except that a value above 1e10 is reinterpreted as
milliseconds; bool is an int in Python; other types are not parsed. none
models both ValueError/OSError and the fall-through for unparseable types. -/
def parse_timestamp_value : Value → Option PyDateTime
  | .vStr s => fromisoformat (replaceZ s)
  | .vInt n =>
      if 10000000000 < n then fromtimestamp ((n : Rat) / 1000)
      else fromtimestamp (n : Rat)
  | .vRat q =>
      if 10000000000 < q then fromtimestamp (q / 1000) else fromtimestamp q
  | .vBool b => fromtimestamp (if b then 1 else 0)
  | _ => none

/-- The ordered timestamp alias keys probed by JSONLogParser. -/
def timestamp_fields : List String :=
  ["timestamp", "time", "datetime", "date", "@timestamp", "ts"]

/-- The alias-probing loop of JSONLogParser._extract_timestamp: for each
alias in order, if the key is present try to parse its value; on a parse
failure the loop continues with the next alias. -/
def extract_timestamp_go : List String → Dict → Option PyDateTime
  | [], _ => none
  | f :: rest, data =>
      match dictGet? data f with
      | none => extract_timestamp_go rest data
      | some v =>
          match parse_timestamp_value v with
          | some t => some t
          | none => extract_timestamp_go rest data

/-- JSONLogParser._extract_timestamp. -/
def extract_timestamp (data : Dict) : Option PyDateTime :=
  extract_timestamp_go timestamp_fields data

/-- The ordered event-type alias keys probed by JSONLogParser. -/
def event_fields : List String := ["event_type", "event", "type", "level", "action"]

/-- The alias-probing loop of JSONLogParser._extract_event_type: the first
present key wins, its value is rendered with str(). -/
def extract_event_type_go : List String → Dict → String
  | [], _ => "unknown"
  | f :: rest, data =>
      match dictGet? data f with
      | some v => pyStr v
      | none => extract_event_type_go rest data

/-- JSONLogParser._extract_event_type. -/
def extract_event_type (data : Dict) : String :=
  extract_event_type_go event_fields data

/-- JSONLogParser.parse on one line: skip a blank line; json.loads the line,
skipping it on a decode failure; skip it when no timestamp alias resolves;
otherwise build the entry. A non-object JSON value makes the alias probe
raise, which the per-line handler catches — the line is skipped. -/
def json_parse_line (source_file : String) (line : String) : Option LogEntry :=
  if (chTrim line.data).isEmpty then none
  else
    match jsonLoads line with
    | none => none
    | some (.vDict data) =>
        match extract_timestamp data with
        | none => none
        | some ts => some ⟨ts, extract_event_type data, data, line, source_file⟩
    | some _ => none

/-- JSONLogParser.parse over a file's lines: per-line error isolation, a
failed line is dropped and parsing continues. -/
def json_parse (source_file : String) (lines : List String) : List LogEntry :=
  lines.filterMap (json_parse_line source_file)

/-! ## Vendor structured-text parser (KiroLogParser) -/

/-- Match of the fixed line shape
(YYYY-MM-DD HH:MM:SS.mmm whitespace [word] whitespace rest): returns the
timestamp text, the level word and the message. The regex is fixed-width up
to the milliseconds, so no backtracking arises and a direct scan is exact. -/
def matchKiroLine (cs : List Char) : Option (String × String × String) := do
  let grab (n : Nat) (cs : List Char) : Option (List Char × List Char) :=
    let ds := cs.take n
    if ds.length = n && ds.all isDig then some (ds, cs.drop n) else none
  let (y, cs) ← grab 4 cs
  let cs ← match cs with | '-' :: r => some r | _ => none
  let (mo, cs) ← grab 2 cs
  let cs ← match cs with | '-' :: r => some r | _ => none
  let (d, cs) ← grab 2 cs
  let cs ← match cs with | ' ' :: r => some r | _ => none
  let (hh, cs) ← grab 2 cs
  let cs ← match cs with | ':' :: r => some r | _ => none
  let (mi, cs) ← grab 2 cs
  let cs ← match cs with | ':' :: r => some r | _ => none
  let (ss, cs) ← grab 2 cs
  let cs ← match cs with | '.' :: r => some r | _ => none
  let (ms, cs) ← grab 3 cs
  let ws1 := cs.takeWhile isSpaceCh
  if ws1.isEmpty then none else
  let cs := cs.drop ws1.length
  let cs ← match cs with | '[' :: r => some r | _ => none
  let w := cs.takeWhile isWordCh
  if w.isEmpty then none else
  let cs := cs.drop w.length
  let cs ← match cs with | ']' :: r => some r | _ => none
  let ws2 := cs.takeWhile isSpaceCh
  if ws2.isEmpty then none else
  let rest := cs.drop ws2.length
  if rest.isEmpty then none else
  some (⟨y ++ '-' :: mo ++ '-' :: d ++ ' ' :: hh ++ ':' :: mi ++ ':' :: ss ++ '.' :: ms⟩,
    ⟨w⟩, ⟨rest⟩)

/-- datetime.strptime with format %Y-%m-%d %H:%M:%S.%f, as applied to the
timestamp text captured by the line match. none models ValueError. -/
def parse_kiro_timestamp (s : String) : Option PyDateTime := do
  let cs := s.data
  let (y, cs) ← readDigitsN 4 cs
  let cs ← match cs with | '-' :: r => some r | _ => none
  let (mo, cs) ← readDigitsN 2 cs
  let cs ← match cs with | '-' :: r => some r | _ => none
  let (d, cs) ← readDigitsN 2 cs
  let cs ← match cs with | ' ' :: r => some r | _ => none
  let (hh, cs) ← readDigitsN 2 cs
  let cs ← match cs with | ':' :: r => some r | _ => none
  let (mi, cs) ← readDigitsN 2 cs
  let cs ← match cs with | ':' :: r => some r | _ => none
  let (ss, cs) ← readDigitsN 2 cs
  let cs ← match cs with | '.' :: r => some r | _ => none
  let (frac, cs) ← readFrac cs
  if !cs.isEmpty then none else
  if mo < 1 || 12 < mo then none else
  if d < 1 || daysInMonth y mo < (d : Int) then none else
  if 23 < hh || 59 < mi || 59 < ss then none else
  some ⟨microsOf y mo d hh mi ss frac, none⟩

/-- Python "key" in container: dict key probe, list membership, substring
test on a string; none models the TypeError on other types. -/
def pyContains (container : Value) (key : String) : Option Bool :=
  match container with
  | .vDict kvs => some (dictContains kvs key)
  | .vList xs =>
      some (xs.any (fun v => match v with | .vStr s => s == key | _ => false))
  | .vStr s => some (pyInStr key s)
  | _ => none

/-- Python container["key"]: only a dict with the key present succeeds; none
models KeyError/TypeError. -/
def pySubscript (container : Value) (key : String) : Option Value :=
  match container with
  | .vDict kvs => dictGet? kvs key
  | _ => none

/-- Python len(v); none models the TypeError on unsized values. -/
def pyLen (v : Value) : Option Int :=
  match v with
  | .vStr s => some s.length
  | .vList xs => some xs.length
  | .vDict kvs => some kvs.length
  | _ => none

/-- KiroLogParser._extract_conversation_data: probe the JSON payload for a
conversation id (direct or nested under conversationState), a task type, and
the history length. none models an exception raised by probing a non-dict
conversation state, which makes the whole line be skipped. -/
def extract_conversation_data (json_data : Value) (data : Dict) : Option Dict := do
  let b1 ← pyContains json_data "conversationId"
  let data ←
    if b1 then do
      let v ← pySubscript json_data "conversationId"
      pure (dictSet data "conversation_id" v)
    else pure data
  let b2 ← pyContains json_data "conversationState"
  if b2 then do
    let cs ← pySubscript json_data "conversationState"
    let c1 ← pyContains cs "conversationId"
    let data ←
      if c1 then do
        let v ← pySubscript cs "conversationId"
        pure (dictSet data "conversation_id" v)
      else pure data
    let c2 ← pyContains cs "agentTaskType"
    let data ←
      if c2 then do
        let v ← pySubscript cs "agentTaskType"
        pure (dictSet data "task_type" v)
      else pure data
    let c3 ← pyContains cs "history"
    if c3 then do
      let h ← pySubscript cs "history"
      let n ← pyLen h
      pure (dictSet data "message_count" (.vInt n))
    else pure data
  else pure data

/-- KiroLogParser._extract_tool_usage: tool-use names and counts, tool-result
counts with a success/failure split keyed by status == "success", and the
available-tool count. -/
def extract_tool_usage (json_data : Value) (data : Dict) : Dict :=
  let data :=
    match pySubscript json_data "toolUses" with
    | some (.vList tool_uses) =>
        let names := tool_uses.filterMap (fun t =>
          match t with
          | .vDict kv => some ((dictGet? kv "name").getD (.vStr "unknown"))
          | _ => none)
        dictSet (dictSet data "tools_used" (.vList names))
          "tool_count" (.vInt tool_uses.length)
    | _ => data
  let data :=
    match pySubscript json_data "toolResults" with
    | some (.vList tool_results) =>
        let successes := (tool_results.filter (fun r =>
          match r with
          | .vDict kv =>
              match dictGet? kv "status" with
              | some (.vStr s) => s == "success"
              | _ => false
          | _ => false)).length
        dictSet (dictSet (dictSet data
          "tool_results_count" (.vInt tool_results.length))
          "tool_success_count" (.vInt successes))
          "tool_failure_count" (.vInt (tool_results.length - successes))
    | _ => data
  match pySubscript json_data "tools" with
  | some (.vList tools) => dictSet data "available_tools_count" (.vInt tools.length)
  | _ => data

/-- KiroLogParser._extract_code_generation: a crude generated-code-line
estimate (newline count of a content field, recorded above a threshold of
5), the content length, the model id, and response metadata. -/
def extract_code_generation (json_data : Value) (data : Dict) : Dict :=
  let data :=
    match pySubscript json_data "content" with
    | some (.vStr content) =>
        let lines : Int := (content.data.filter (fun c => c = '\n')).length
        let data := if 5 < lines then dictSet data "potential_code_lines" (.vInt lines) else data
        dictSet data "content_length" (.vInt content.length)
    | _ => data
  let data :=
    match pySubscript json_data "modelId" with
    | some v => dictSet data "model_id" v
    | _ => data
  match pySubscript json_data "metadata" with
  | some (.vDict md) =>
      let data :=
        match dictGet? md "httpStatusCode" with
        | some v => dictSet data "http_status" v
        | none => data
      match dictGet? md "requestId" with
      | some v => dictSet data "request_id" v
      | none => data
  | _ => data

/-- The embedded-JSON span mined by re.search of a brace, a greedy gap and a
brace: from the first opening brace to the last closing brace after it (not
a balanced-brace scan). -/
def kiroJsonSpan (cs : List Char) : Option (List Char) :=
  match cs.findIdx? (· = '\x7b') with
  | none => none
  | some p =>
      match (cs.reverse.findIdx? (· = '\x7d')).map (fun r => cs.length - 1 - r) with
      | none => none
      | some q => if p < q then some ((cs.drop p).take (q - p + 1)) else none

/-- The regex search for an autonomyMode=WORD token: the first position where
the label is followed by at least one word character wins. -/
def autonomyModeSearch : List Char → Option String
  | [] => none
  | c :: cs =>
      if matchesAt ("autonomyMode=".data) (c :: cs) then
        let w := ((c :: cs).drop 13).takeWhile isWordCh
        if w.isEmpty then autonomyModeSearch cs else some ⟨w⟩
      else autonomyModeSearch cs

/-- KiroLogParser._extract_kiro_data: the base level/message payload, then
embedded-JSON mining (ignored on decode failure), then the message-text
signature flags. none models an exception escaping the extraction, which
makes parse skip the line. -/
def extract_kiro_data (message : String) (level : String) : Option Dict := do
  let data : Dict := [("level", .vStr level), ("message", .vStr message)]
  let data ←
    match kiroJsonSpan message.data with
    | none => pure data
    | some span =>
        match jsonLoads ⟨span⟩ with
        | none => pure data
        | some jd => do
            let data := dictSet data "json_payload" jd
            let data ← extract_conversation_data jd data
            let data := extract_tool_usage jd data
            pure (extract_code_generation jd data)
  let data :=
    if pyInStr "[agent-controller]" message then
      let data := dictSet data "agent_event" (.vBool true)
      if pyInStr "Triggered new agent" message then
        let data := dictSet data "event_subtype" (.vStr "agent_start")
        if pyInStr "autonomyMode=" message then
          match autonomyModeSearch message.data with
          | some m => dictSet data "autonomy_mode" (.vStr m)
          | none => data
        else data
      else data
    else data
  let data :=
    if pyInStr "[Tool agent Action]" message || pyInStr "toolUse" message then
      dictSet data "tool_invocation" (.vBool true)
    else data
  let data :=
    if pyInStr "[Terminal]" message && pyInStr "Executing command" message then
      dictSet data "terminal_command" (.vBool true)
    else data
  pure data

/-- Python truthiness of an optional payload value (dict.get result). -/
def pyTruthy : Option Value → Bool
  | none => false
  | some .vNull => false
  | some (.vBool b) => b
  | some (.vInt n) => decide (n ≠ 0)
  | some (.vRat q) => decide (q ≠ 0)
  | some (.vStr s) => !s.isEmpty
  | some (.vList xs) => !xs.isEmpty
  | some (.vDict kvs) => !kvs.isEmpty

/-- KiroLogParser._determine_event_type: the fixed precedence over the
extracted flags, the conversation id, the message-text markers, and finally
the log level. -/
def determine_event_type (message : String) (data : Dict) : String :=
  if pyTruthy (dictGet? data "agent_event") then
    (match dictGet? data "event_subtype" with
     | some (.vStr s) => if s = "agent_start" then "conversation_start" else "agent_event"
     | _ => "agent_event")
  else if pyTruthy (dictGet? data "tool_invocation") then "tool_invocation"
  else if pyTruthy (dictGet? data "terminal_command") then "terminal_command"
  else if dictContains data "conversation_id" then
    (if pyInStr "toolUses" message || pyTruthy (dictGet? data "tools_used") then
      "assistant_response"
    else if pyInStr "userInputMessage" message then "user_request"
    else "conversation_message")
  else if pyInStr "GenerateAssistantResponseCommand" message then "llm_request"
  else
    let lv := lowerStr (match dictGet? data "level" with | some (.vStr s) => s | _ => "")
    if lv = "error" then "error"
    else if lv = "warning" then "warning"
    else "info"

/-- KiroLogParser._parse_kiro_log_line: match the fixed line shape, parse the
timestamp, extract the structured data, resolve the event type. -/
def parse_kiro_log_line (line : String) (source_file : String) : Option LogEntry :=
  match matchKiroLine line.data with
  | none => none
  | some (tsStr, level, message) =>
      match parse_kiro_timestamp tsStr with
      | none => none
      | some ts =>
          match extract_kiro_data message level with
          | none => none
          | some data =>
              some ⟨ts, determine_event_type message data, data, line, source_file⟩

/-- KiroLogParser.parse over a file's lines: skip blank lines, parse each
remaining line, dropping lines that fail or raise. -/
def kiro_parse (source_file : String) (lines : List String) : List LogEntry :=
  lines.filterMap (fun line =>
    if (chTrim line.data).isEmpty then none else parse_kiro_log_line line source_file)

/-! ## Parsing orchestrator (ParserService) -/

/-- One event of a parser generator's lazy stream: a yielded record, or an
exception raised mid-stream. -/
inductive StreamItem where
  | yielded (e : LogEntry)
  | raised

/-- The collection loop of ParserService.parse_file: append yielded records
until the stream ends or an exception is raised; the exception is caught and
logged, the records collected so far are kept. -/
def collectYields : List StreamItem → List LogEntry
  | [] => []
  | .yielded e :: rest => e :: collectYields rest
  | .raised :: _ => []

/-- A format parser behind the registry's protocol: the capability test and
the lazy extraction stream. -/
structure ParserImpl where
  accepts : String → Bool
  run : String → List StreamItem

/-- ParserRegistry.get_parser: the first registered parser whose capability
test accepts the file. -/
def parser_for (parsers : List ParserImpl) (file_path : String) : Option ParserImpl :=
  parsers.find? (fun p => p.accepts file_path)

/-- The failures ParserService.parse_file raises to its caller. -/
inductive ParseFileError where
  | fileNotFound
  | noParserAvailable

/-- ParserService.parse_file: a missing file and an unclaimed file are hard
failures; otherwise drive the chosen parser's stream, keeping the records
collected before any mid-stream exception. -/
def parse_file (file_exists : String → Bool) (parsers : List ParserImpl)
    (file_path : String) : Except ParseFileError (List LogEntry) :=
  if file_exists file_path then
    match parser_for parsers file_path with
    | none => .error .noParserAvailable
    | some p => .ok (collectYields (p.run file_path))
  else .error .fileNotFound

/-- A minimal entry used to instantiate theorems at concrete inputs. -/
def mkEntry (w : Int) (tz : Option Int) (et : String) (data : Dict) : LogEntry :=
  ⟨⟨w, tz⟩, et, data, "", ""⟩

/-! ## Dictionary and merge lemmas -/

theorem dictGet?_dictSet_self (d : Dict) (k : String) (v : Value) :
    dictGet? (dictSet d k v) k = some v := by
  induction d with
  | nil => simp [dictSet, dictGet?]
  | cons p rest ih =>
      obtain ⟨pk, pv⟩ := p
      by_cases h : pk = k <;> simp [dictSet, dictGet?, h, ih]

theorem dictGet?_dictSet_ne (d : Dict) (k : String) (v : Value) (k' : String)
    (h : k' ≠ k) : dictGet? (dictSet d k v) k' = dictGet? d k' := by
  induction d with
  | nil =>
      simp only [dictSet, dictGet?]
      rw [if_neg (Ne.symm h)]
  | cons p rest ih =>
      obtain ⟨pk, pv⟩ := p
      simp only [dictSet]
      by_cases hpk : pk = k
      · subst hpk
        rw [if_pos rfl]
        simp only [dictGet?]
        rw [if_neg (Ne.symm h), if_neg (Ne.symm h)]
      · rw [if_neg hpk]
        simp only [dictGet?]
        by_cases hpk' : pk = k'
        · rw [if_pos hpk', if_pos hpk']
        · rw [if_neg hpk', if_neg hpk', ih]

theorem mergeStep_eq_dictSet (acc : Dict) (kv : String × Value) :
    ∃ v', mergeStep acc kv = dictSet acc kv.1 v' := by
  obtain ⟨k0, v0⟩ := kv
  unfold mergeStep
  rcases hget : dictGet? acc k0 with _ | old
  · exact ⟨v0, rfl⟩
  · cases old <;> cases v0 <;> exact ⟨_, rfl⟩

theorem dictMergeStep_eq_dictSet (acc : Dict) (kv : String × Value) :
    ∃ v', dictMergeStep acc kv = dictSet acc kv.1 v' := by
  obtain ⟨k0, v0⟩ := kv
  unfold dictMergeStep
  rcases hget : dictGet? acc k0 with _ | old
  · exact ⟨v0, rfl⟩
  · exact ⟨_, rfl⟩

theorem dictGet?_mergeStep_ne (acc : Dict) (k0 : String) (v0 : Value) (k : String)
    (h : k ≠ k0) : dictGet? (mergeStep acc (k0, v0)) k = dictGet? acc k := by
  obtain ⟨v', hv⟩ := mergeStep_eq_dictSet acc (k0, v0)
  rw [hv]
  exact dictGet?_dictSet_ne _ _ _ _ h

theorem dictGet?_dictMergeStep_ne (acc : Dict) (k0 : String) (v0 : Value) (k : String)
    (h : k ≠ k0) : dictGet? (dictMergeStep acc (k0, v0)) k = dictGet? acc k := by
  obtain ⟨v', hv⟩ := dictMergeStep_eq_dictSet acc (k0, v0)
  rw [hv]
  exact dictGet?_dictSet_ne _ _ _ _ h

theorem dictGet?_merge_results_notin (result : Dict) (aggregated : Dict) (k : String)
    (h : k ∉ result.map Prod.fst) :
    dictGet? (merge_results aggregated result) k = dictGet? aggregated k := by
  induction result generalizing aggregated with
  | nil => rfl
  | cons kv rest ih =>
      obtain ⟨k0, v0⟩ := kv
      simp only [List.map_cons, List.mem_cons] at h
      push_neg at h
      rw [merge_results, ih _ h.2, dictGet?_mergeStep_ne _ _ _ _ h.1]

theorem dictGet?_merge_dicts_notin (inc : Dict) (agg : Dict) (k : String)
    (h : k ∉ inc.map Prod.fst) :
    dictGet? (merge_dicts agg inc) k = dictGet? agg k := by
  induction inc generalizing agg with
  | nil => rfl
  | cons kv rest ih =>
      obtain ⟨k0, v0⟩ := kv
      simp only [List.map_cons, List.mem_cons] at h
      push_neg at h
      rw [merge_dicts, ih _ h.2, dictGet?_dictMergeStep_ne _ _ _ _ h.1]

theorem dictGet?_merge_dicts_both (vd : Dict) (od : Dict) (sk : String) (a b : Value)
    (hnd : (vd.map Prod.fst).Nodup)
    (ho : dictGet? od sk = some a) (hv : dictGet? vd sk = some b) :
    dictGet? (merge_dicts od vd) sk = some ((pyAdd a b).getD b) := by
  induction vd generalizing od with
  | nil => simp [dictGet?] at hv
  | cons kv rest ih =>
      obtain ⟨k0, v0⟩ := kv
      simp only [List.map_cons, List.nodup_cons] at hnd
      by_cases hk : k0 = sk
      · subst hk
        have hb : v0 = b := by simpa [dictGet?] using hv
        subst hb
        rw [merge_dicts, dictGet?_merge_dicts_notin _ _ _ hnd.1]
        unfold dictMergeStep
        simp only [ho]
        exact dictGet?_dictSet_self _ _ _
      · rw [dictGet?, if_neg hk] at hv
        rw [merge_dicts]
        exact ih _ hnd.2
          (by rw [dictGet?_dictMergeStep_ne _ _ _ _ (Ne.symm hk), ho]) hv

theorem dictGet?_merge_results_both (result : Dict) (aggregated : Dict) (k : String)
    (od vd : Dict) (hnd : (result.map Prod.fst).Nodup)
    (ha : dictGet? aggregated k = some (.vDict od))
    (hr : dictGet? result k = some (.vDict vd)) :
    dictGet? (merge_results aggregated result) k = some (.vDict (merge_dicts od vd)) := by
  induction result generalizing aggregated with
  | nil => simp [dictGet?] at hr
  | cons kv rest ih =>
      obtain ⟨k0, v0⟩ := kv
      simp only [List.map_cons, List.nodup_cons] at hnd
      by_cases hk : k0 = k
      · subst hk
        have hb : v0 = .vDict vd := by simpa [dictGet?] using hr
        subst hb
        rw [merge_results, dictGet?_merge_results_notin _ _ _ hnd.1]
        unfold mergeStep
        simp only [ha]
        exact dictGet?_dictSet_self _ _ _
      · rw [dictGet?, if_neg hk] at hr
        rw [merge_results]
        exact ih _ hnd.2
          (by rw [dictGet?_mergeStep_ne _ _ _ _ (Ne.symm hk), ha]) hr

theorem mergeStep_not_both (acc : Dict) (k0 : String) (v0 : Value)
    (h : ∀ od, dictGet? acc k0 = some (.vDict od) → v0.isDict = false) :
    mergeStep acc (k0, v0) = dictSet acc k0 v0 := by
  unfold mergeStep
  rcases hget : dictGet? acc k0 with _ | old
  · rfl
  · cases old <;> cases v0 <;>
      first
        | rfl
        | exact absurd (h _ hget) (by simp [Value.isDict])

theorem dictGet?_merge_results_replace (result : Dict) (aggregated : Dict) (k : String)
    (v : Value) (hnd : (result.map Prod.fst).Nodup)
    (hr : dictGet? result k = some v)
    (hnb : ∀ od, dictGet? aggregated k = some (.vDict od) → v.isDict = false) :
    dictGet? (merge_results aggregated result) k = some v := by
  induction result generalizing aggregated with
  | nil => simp [dictGet?] at hr
  | cons kv rest ih =>
      obtain ⟨k0, v0⟩ := kv
      simp only [List.map_cons, List.nodup_cons] at hnd
      by_cases hk : k0 = k
      · subst hk
        have hb : v0 = v := by simpa [dictGet?] using hr
        subst hb
        rw [merge_results, dictGet?_merge_results_notin _ _ _ hnd.1,
          mergeStep_not_both _ _ _ hnb]
        exact dictGet?_dictSet_self _ _ _
      · rw [dictGet?, if_neg hk] at hr
        rw [merge_results]
        refine ih _ hnd.2 hr (fun od hod => ?_)
        exact hnb od (by rw [← dictGet?_mergeStep_ne _ _ _ _ (Ne.symm hk), hod])

theorem dictContains_dictSet (d : Dict) (k : String) (v : Value) (k' : String)
    (h : dictContains d k' = true) : dictContains (dictSet d k v) k' = true := by
  unfold dictContains at *
  by_cases hk : k' = k
  · subst hk
    rw [dictGet?_dictSet_self]
    rfl
  · rw [dictGet?_dictSet_ne _ _ _ _ hk]
    exact h

theorem dictContains_merge_results (result : Dict) (aggregated : Dict) (k : String)
    (h : dictContains aggregated k = true) :
    dictContains (merge_results aggregated result) k = true := by
  induction result generalizing aggregated with
  | nil => exact h
  | cons kv rest ih =>
      rw [merge_results]
      refine ih _ ?_
      obtain ⟨v', hv⟩ := mergeStep_eq_dictSet aggregated kv
      rw [hv]
      exact dictContains_dictSet _ _ _ _ h

theorem dictContains_runCalcLoop (calculators : List Calc) (entries : List LogEntry)
    (agg : Dict) (k : String) (h : dictContains agg k = true) :
    dictContains (runCalcLoop calculators entries agg) k = true := by
  induction calculators generalizing agg with
  | nil => exact h
  | cons c rest ih =>
      rw [runCalcLoop]
      rcases hc : c entries with _ | r
      · exact ih _ h
      · exact ih _ (dictContains_merge_results _ _ _ h)

theorem dictContains_of_mem_keys (d : Dict) (k : String)
    (h : k ∈ d.map Prod.fst) : dictContains d k = true := by
  induction d with
  | nil => simp at h
  | cons kv rest ih =>
      obtain ⟨k0, v0⟩ := kv
      simp only [List.map_cons, List.mem_cons] at h
      unfold dictContains dictGet?
      by_cases hk : k0 = k
      · rw [if_pos hk]
        rfl
      · rw [if_neg hk]
        exact ih (h.resolve_left (fun hh => hk hh.symm))

/-! ## Claim theorems -/

/-- C1: the aggregation-engine merge rule. For every aggregate and every
incoming calculator result merged key by key: (1) when both values for a key
are dicts they are merged sub-key by sub-key, with values Python-added
(numeric values summed) where a sub-key exists in both; (2) otherwise the
incoming value replaces the aggregate's value outright. In particular
merging tool_usage a:5 with a:2, b:3 yields a:7, b:3, and merging
total_requests 10 then 3 from two calculators yields 3, not 13. -/
theorem claim_C1 :
    (∀ (aggregated result : Dict) (k : String) (od vd : Dict),
        (result.map Prod.fst).Nodup →
        dictGet? aggregated k = some (.vDict od) →
        dictGet? result k = some (.vDict vd) →
        dictGet? (merge_results aggregated result) k = some (.vDict (merge_dicts od vd)))
  ∧ (∀ (od vd : Dict) (sk : String) (m n : Int),
        (vd.map Prod.fst).Nodup →
        dictGet? od sk = some (.vInt m) → dictGet? vd sk = some (.vInt n) →
        dictGet? (merge_dicts od vd) sk = some (.vInt (m + n)))
  ∧ (∀ (aggregated result : Dict) (k : String) (v : Value),
        (result.map Prod.fst).Nodup →
        dictGet? result k = some v →
        (∀ od, dictGet? aggregated k = some (.vDict od) → v.isDict = false) →
        dictGet? (merge_results aggregated result) k = some v)
  ∧ merge_results [("tool_usage", .vDict [("a", .vInt 5)])]
        [("tool_usage", .vDict [("a", .vInt 2), ("b", .vInt 3)])]
      = [("tool_usage", .vDict [("a", .vInt 7), ("b", .vInt 3)])]
  ∧ dictGet? (merge_results (merge_results defaultAggregated
        [("total_requests", .vInt 10)]) [("total_requests", .vInt 3)])
        "total_requests" = some (.vInt 3) := by
  refine ⟨?_, ?_, ?_, rfl, rfl⟩
  · exact fun aggregated result k od vd hnd ha hr =>
      dictGet?_merge_results_both result aggregated k od vd hnd ha hr
  · intro od vd sk m n hnd ho hv
    have h := dictGet?_merge_dicts_both vd od sk (.vInt m) (.vInt n) hnd ho hv
    simpa [pyAdd] using h
  · exact fun aggregated result k v hnd hr hnb =>
      dictGet?_merge_results_replace result aggregated k v hnd hr hnb

/-- Witness for C1: the keyed-counter summing rule applied at the concrete
documented inputs. -/
theorem claim_C1_witness :
    (([("a", Value.vInt 2), ("b", Value.vInt 3)].map Prod.fst).Nodup) ∧
    dictGet? (merge_dicts [("a", .vInt 5)] [("a", .vInt 2), ("b", .vInt 3)]) "a"
      = some (.vInt 7) :=
  ⟨by decide,
    claim_C1.2.1 [("a", .vInt 5)] [("a", .vInt 2), ("b", .vInt 3)] "a" 5 2
      (by decide) rfl rfl⟩

/-- C2: for every entry list and every calculator list (including raising
calculators), the aggregate behind the Metrics Record returned by
AnalyzerService.analyze has every declared metric field present — the
defaults are seeded before any calculator runs and merging never removes a
key. -/
theorem claim_C2 (calculators : List Calc) (entries : List LogEntry) (k : String)
    (h : k ∈ metricKeys) :
    dictContains (runCalculators calculators entries) k = true :=
  dictContains_runCalcLoop calculators entries defaultAggregated k
    (dictContains_of_mem_keys defaultAggregated k h)

/-- Witness for C2: a raising calculator plus a scalar-writing calculator on
the empty entry list still leave tool_usage present. -/
theorem claim_C2_witness :
    ("tool_usage" ∈ metricKeys) ∧
    dictContains (runCalculators
      [fun _ => none, fun _ => some [("total_requests", .vInt 5)]] [])
      "tool_usage" = true :=
  ⟨by decide, claim_C2 _ _ _ (by decide)⟩

/-- C3: date-range filtering keeps exactly the entries with
start ≤ timestamp ≤ end after dropping any UTC offset from the compared
readings, bounds inclusive; concretely, entries exactly at the bounds stay
and entries one microsecond outside either bound are dropped. -/
theorem claim_C3 :
    (∀ (entries : List LogEntry) (s e : PyDateTime) (x : LogEntry),
        x ∈ filter_by_date_range entries s e ↔
          x ∈ entries ∧
            (normalizeNaive s).wall ≤ (normalizeNaive x.timestamp).wall ∧
            (normalizeNaive x.timestamp).wall ≤ (normalizeNaive e).wall)
  ∧ (filter_by_date_range
        [mkEntry 999 none "a" [], mkEntry 1000 none "b" [],
         mkEntry 2000 (some 3600) "c" [], mkEntry 2001 none "d" []]
        ⟨1000, none⟩ ⟨2000, some 0⟩).map entryWall = [1000, 2000] := by
  refine ⟨fun entries s e x => ?_, rfl⟩
  simp [filter_by_date_range, List.mem_filter, and_assoc]

/-- C10: date-range filtering returns a subsequence of its input — every
output element is an input entry unchanged, order is preserved, nothing is
duplicated (the embedding is pure, so entries are never mutated). -/
theorem claim_C10 (entries : List LogEntry) (s e : PyDateTime) :
    (filter_by_date_range entries s e).Sublist entries :=
  List.filter_sublist entries

/-! ## Orchestrator partial-success lemma and claim -/

theorem collectYields_append (ys : List LogEntry) (rest : List StreamItem) :
    collectYields (ys.map .yielded ++ .raised :: rest) = ys := by
  induction ys with
  | nil => rfl
  | cons y tail ih => simp [collectYields, ih]

/-- C8: when the file exists and a parser accepts it, and the parser's lazy
stream yields some records and then raises mid-stream, parse_file returns
exactly the records collected before the exception, in yield order, without
propagating the exception. -/
theorem claim_C8 (file_exists : String → Bool) (parsers : List ParserImpl)
    (file_path : String) (p : ParserImpl) (ys : List LogEntry)
    (rest : List StreamItem)
    (hfe : file_exists file_path = true)
    (hp : parser_for parsers file_path = some p)
    (hrun : p.run file_path = ys.map .yielded ++ .raised :: rest) :
    parse_file file_exists parsers file_path = .ok ys := by
  unfold parse_file
  rw [hfe, if_pos rfl, hp]
  simp only []
  rw [hrun, collectYields_append]

/-- Witness for C8: a parser that yields one record, raises, and would have
yielded another; the first record is returned. -/
theorem claim_C8_witness :
    parse_file (fun _ => true)
      [⟨fun _ => true, fun _ =>
        [.yielded (mkEntry 0 none "a" []), .raised, .yielded (mkEntry 1 none "b" [])]⟩]
      "app.log" = .ok [mkEntry 0 none "a" []] :=
  claim_C8 (fun _ => true) _ "app.log" _ [mkEntry 0 none "a" []]
    [.yielded (mkEntry 1 none "b" [])] rfl rfl rfl

/-! ## Fold min/max lemmas (Python min()/max() over a nonempty list) -/

theorem foldMin_mem {α : Type} [LinearOrder α] (a : α) (l : List α) :
    foldMin a l ∈ a :: l := by
  induction l generalizing a with
  | nil => simp [foldMin]
  | cons b tl ih =>
      unfold foldMin
      rw [List.foldl_cons]
      have h := ih (min a b)
      unfold foldMin at h
      rcases List.mem_cons.mp h with h1 | h1
      · rw [h1]
        rcases le_total a b with hab | hab
        · rw [min_eq_left hab]
          exact List.mem_cons_self _ _
        · rw [min_eq_right hab]
          exact List.mem_cons_of_mem _ (List.mem_cons_self _ _)
      · exact List.mem_cons_of_mem _ (List.mem_cons_of_mem _ h1)

theorem foldMin_le {α : Type} [LinearOrder α] (a : α) (l : List α) :
    ∀ x ∈ a :: l, foldMin a l ≤ x := by
  induction l generalizing a with
  | nil =>
      intro x hx
      rcases List.mem_cons.mp hx with h1 | h1
      · rw [h1]; exact le_refl _
      · simp at h1
  | cons b tl ih =>
      intro x hx
      unfold foldMin
      rw [List.foldl_cons]
      have h := ih (min a b)
      unfold foldMin at h
      rcases List.mem_cons.mp hx with h1 | h1
      · rw [h1]
        exact le_trans (h _ (List.mem_cons_self _ _)) (min_le_left a b)
      · rcases List.mem_cons.mp h1 with h2 | h2
        · rw [h2]
          exact le_trans (h _ (List.mem_cons_self _ _)) (min_le_right a b)
        · exact h x (List.mem_cons_of_mem _ h2)

theorem foldMax_mem {α : Type} [LinearOrder α] (a : α) (l : List α) :
    foldMax a l ∈ a :: l := by
  induction l generalizing a with
  | nil => simp [foldMax]
  | cons b tl ih =>
      unfold foldMax
      rw [List.foldl_cons]
      have h := ih (max a b)
      unfold foldMax at h
      rcases List.mem_cons.mp h with h1 | h1
      · rw [h1]
        rcases le_total a b with hab | hab
        · rw [max_eq_right hab]
          exact List.mem_cons_of_mem _ (List.mem_cons_self _ _)
        · rw [max_eq_left hab]
          exact List.mem_cons_self _ _
      · exact List.mem_cons_of_mem _ (List.mem_cons_of_mem _ h1)

theorem le_foldMax {α : Type} [LinearOrder α] (a : α) (l : List α) :
    ∀ x ∈ a :: l, x ≤ foldMax a l := by
  induction l generalizing a with
  | nil =>
      intro x hx
      rcases List.mem_cons.mp hx with h1 | h1
      · rw [h1]; exact le_refl _
      · simp at h1
  | cons b tl ih =>
      intro x hx
      unfold foldMax
      rw [List.foldl_cons]
      have h := ih (max a b)
      unfold foldMax at h
      rcases List.mem_cons.mp hx with h1 | h1
      · rw [h1]
        exact le_trans (le_max_left a b) (h _ (List.mem_cons_self _ _))
      · rcases List.mem_cons.mp h1 with h2 | h2
        · rw [h2]
          exact le_trans (le_max_right a b) (h _ (List.mem_cons_self _ _))
        · exact h x (List.mem_cons_of_mem _ h2)

/-- C6: the response-timing postcondition. With no accepted sample all three
reported values are zero; with samples, the average is the sum over the
count, the fastest is the minimum, the slowest is the maximum, they satisfy
fastest ≤ average ≤ slowest, and no division by zero is performed (the
zero-sample branch returns constants). -/
theorem claim_C6 (entries : List LogEntry) :
    (response_times entries = [] →
      response_time_calculate entries =
        [("avg_response_time_seconds", .vRat 0),
         ("fastest_response_time_seconds", .vRat 0),
         ("slowest_response_time_seconds", .vRat 0)])
  ∧ (response_times entries ≠ [] →
      ∃ a f s : Rat,
        response_time_calculate entries =
          [("avg_response_time_seconds", .vRat a),
           ("fastest_response_time_seconds", .vRat f),
           ("slowest_response_time_seconds", .vRat s)] ∧
        a = (response_times entries).sum / ((response_times entries).length : Rat) ∧
        f ∈ response_times entries ∧ (∀ x ∈ response_times entries, f ≤ x) ∧
        s ∈ response_times entries ∧ (∀ x ∈ response_times entries, x ≤ s) ∧
        f ≤ a ∧ a ≤ s) := by
  constructor
  · intro h
    unfold response_time_calculate
    rw [h]
  · intro h
    rcases hts : response_times entries with _ | ⟨t, rest⟩
    · exact absurd hts h
    · have hlen : (0 : Rat) < ((t :: rest).length : Rat) := by
        simp only [List.length_cons]
        exact_mod_cast Nat.succ_pos rest.length
      refine ⟨(t :: rest).sum / ((t :: rest).length : Rat), foldMin t rest,
        foldMax t rest, ?_, rfl, foldMin_mem t rest, foldMin_le t rest,
        foldMax_mem t rest, le_foldMax t rest, ?_, ?_⟩
      · unfold response_time_calculate
        rw [hts]
      · rw [le_div_iff₀ hlen, mul_comm, ← nsmul_eq_mul]
        exact List.card_nsmul_le_sum _ _ (foldMin_le t rest)
      · rw [div_le_iff₀ hlen, mul_comm, ← nsmul_eq_mul]
        exact List.sum_le_card_nsmul _ _ (le_foldMax t rest)

unseal Rat.add Rat.mul Rat.inv Rat.ofScientific in
/-- Witness for C6: two concrete samples 1 and 5/2 give fastest 1,
average 7/4, slowest 5/2. -/
theorem claim_C6_witness :
    (response_times
        [mkEntry 0 none "a" [("response_time", .vStr "2.5")],
         mkEntry 0 none "b" [("response_time_seconds", .vInt 1)]] ≠ []) ∧
    (∃ a f s : Rat,
      response_time_calculate
          [mkEntry 0 none "a" [("response_time", .vStr "2.5")],
           mkEntry 0 none "b" [("response_time_seconds", .vInt 1)]] =
        [("avg_response_time_seconds", .vRat a),
         ("fastest_response_time_seconds", .vRat f),
         ("slowest_response_time_seconds", .vRat s)] ∧
      a = (response_times
          [mkEntry 0 none "a" [("response_time", .vStr "2.5")],
           mkEntry 0 none "b" [("response_time_seconds", .vInt 1)]]).sum /
        ((response_times
          [mkEntry 0 none "a" [("response_time", .vStr "2.5")],
           mkEntry 0 none "b" [("response_time_seconds", .vInt 1)]]).length : Rat) ∧
      f ∈ response_times
          [mkEntry 0 none "a" [("response_time", .vStr "2.5")],
           mkEntry 0 none "b" [("response_time_seconds", .vInt 1)]] ∧
      (∀ x ∈ response_times
          [mkEntry 0 none "a" [("response_time", .vStr "2.5")],
           mkEntry 0 none "b" [("response_time_seconds", .vInt 1)]], f ≤ x) ∧
      s ∈ response_times
          [mkEntry 0 none "a" [("response_time", .vStr "2.5")],
           mkEntry 0 none "b" [("response_time_seconds", .vInt 1)]] ∧
      (∀ x ∈ response_times
          [mkEntry 0 none "a" [("response_time", .vStr "2.5")],
           mkEntry 0 none "b" [("response_time_seconds", .vInt 1)]], x ≤ s) ∧
      f ≤ a ∧ a ≤ s) :=
  ⟨by decide,
    (claim_C6
      [mkEntry 0 none "a" [("response_time", .vStr "2.5")],
       mkEntry 0 none "b" [("response_time_seconds", .vInt 1)]]).2 (by decide)⟩

/-! ## Timestamp alias resolution (JSONLogParser._extract_timestamp) -/

theorem extract_timestamp_go_eq_firstParse (fields : List String) (data : Dict) :
    extract_timestamp_go fields data =
      (fields.filterMap (fun f => (dictGet? data f).bind parse_timestamp_value)).head? := by
  induction fields with
  | nil => rfl
  | cons f rest ih =>
      unfold extract_timestamp_go
      rcases hget : dictGet? data f with _ | v
      · simp [List.filterMap_cons, hget, ih]
      · rcases hp : parse_timestamp_value v with _ | t <;>
          simp [List.filterMap_cons, hget, hp, ih]

unseal Rat.add Rat.mul Rat.inv Rat.ofScientific in
/-- Counterexample for C4: on an object whose first present alias key
(timestamp) holds an unparseable value while the later alias (time) holds a
parseable one, the code consults the later alias and derives the timestamp
from it, instead of stopping at the first present key as claimed. -/
theorem claim_C4_counterexample :
    dictGet? [("timestamp", .vStr "garbage"), ("time", .vInt 100)] "timestamp"
        = some (.vStr "garbage") ∧
    parse_timestamp_value (.vStr "garbage") = none ∧
    parse_timestamp_value (.vInt 100) = some ⟨100000000, none⟩ ∧
    extract_timestamp [("timestamp", .vStr "garbage"), ("time", .vInt 100)]
        = some ⟨100000000, none⟩ :=
  ⟨rfl, rfl, by decide, by decide⟩

/-- C4 (amended): the timestamp is resolved by probing the alias keys in the
fixed order timestamp, time, datetime, date, @timestamp, ts, and the first
present key whose value parses successfully wins; when a present key's value
fails to parse, the later alias keys are consulted. -/
theorem claim_C4 (data : Dict) :
    extract_timestamp data =
      (timestamp_fields.filterMap
        (fun f => (dictGet? data f).bind parse_timestamp_value)).head? :=
  extract_timestamp_go_eq_firstParse timestamp_fields data

/-! ## JSON-line per-line error isolation (JSONLogParser.parse) -/

/-- C7: the line with timestamp 2025-11-19T10:00:00Z and event_type request,
followed by the malformed line, followed by any valid JSON line with a
resolvable timestamp, parses to exactly 2 records in source order, with the
malformed line absent and the file never aborted. -/
theorem claim_C7 (line3 : String) (obj3 : Dict) (t3 : PyDateTime)
    (hnb : (chTrim line3.data).isEmpty = false)
    (hjson : jsonLoads line3 = some (.vDict obj3))
    (hts : extract_timestamp obj3 = some t3) :
    json_parse "app.log"
      ["\x7b\"timestamp\":\"2025-11-19T10:00:00Z\",\"event_type\":\"request\"\x7d",
       "\x7bbad\x7d", line3] =
    [⟨⟨1763546400000000, some 0⟩, "request",
      [("timestamp", .vStr "2025-11-19T10:00:00Z"), ("event_type", .vStr "request")],
      "\x7b\"timestamp\":\"2025-11-19T10:00:00Z\",\"event_type\":\"request\"\x7d",
      "app.log"⟩,
     ⟨t3, extract_event_type obj3, obj3, line3, "app.log"⟩] := by
  have h1 : json_parse_line "app.log"
      "\x7b\"timestamp\":\"2025-11-19T10:00:00Z\",\"event_type\":\"request\"\x7d" =
      some ⟨⟨1763546400000000, some 0⟩, "request",
        [("timestamp", .vStr "2025-11-19T10:00:00Z"), ("event_type", .vStr "request")],
        "\x7b\"timestamp\":\"2025-11-19T10:00:00Z\",\"event_type\":\"request\"\x7d",
        "app.log"⟩ := rfl
  have h2 : json_parse_line "app.log" "\x7bbad\x7d" = none := rfl
  have h3 : json_parse_line "app.log" line3 =
      some ⟨t3, extract_event_type obj3, obj3, line3, "app.log"⟩ := by
    unfold json_parse_line
    rw [hnb, hjson]
    simp [hts]
  unfold json_parse
  rw [List.filterMap_cons, List.filterMap_cons, List.filterMap_cons,
    List.filterMap_nil, h1, h2, h3]

unseal Rat.add Rat.mul Rat.inv Rat.ofScientific in
/-- Witness for C7: the third line is the concrete valid line with a ts
alias holding Unix seconds 100. -/
theorem claim_C7_witness :
    ((chTrim "\x7b\"ts\":100\x7d".data).isEmpty = false) ∧
    (jsonLoads "\x7b\"ts\":100\x7d" = some (.vDict [("ts", .vInt 100)])) ∧
    (extract_timestamp [("ts", .vInt 100)] = some ⟨100000000, none⟩) ∧
    json_parse "app.log"
      ["\x7b\"timestamp\":\"2025-11-19T10:00:00Z\",\"event_type\":\"request\"\x7d",
       "\x7bbad\x7d", "\x7b\"ts\":100\x7d"] =
    [⟨⟨1763546400000000, some 0⟩, "request",
      [("timestamp", .vStr "2025-11-19T10:00:00Z"), ("event_type", .vStr "request")],
      "\x7b\"timestamp\":\"2025-11-19T10:00:00Z\",\"event_type\":\"request\"\x7d",
      "app.log"⟩,
     ⟨⟨100000000, none⟩, "unknown", [("ts", .vInt 100)], "\x7b\"ts\":100\x7d",
      "app.log"⟩] :=
  ⟨rfl, rfl, by decide,
    claim_C7 "\x7b\"ts\":100\x7d" [("ts", .vInt 100)] ⟨100000000, none⟩
      rfl rfl (by decide)⟩

/-! ## Vendor parser event typing (KiroLogParser) -/

/-- C5: the documented agent-controller line yields exactly one record, with
event_type conversation_start and extracted autonomy_mode Supervised. -/
theorem claim_C5 :
    ∃ e : LogEntry,
      kiro_parse "k.log"
        ["2025-11-19 23:03:58.159 [info] [agent-controller] Triggered new agent: spec-generation (autonomyMode=Supervised)"]
        = [e] ∧
      e.event_type = "conversation_start" ∧
      dictGet? e.data "autonomy_mode" = some (.vStr "Supervised") :=
  ⟨⟨⟨1763593438159000, none⟩, "conversation_start",
    [("level", .vStr "info"),
     ("message", .vStr "[agent-controller] Triggered new agent: spec-generation (autonomyMode=Supervised)"),
     ("agent_event", .vBool true), ("event_subtype", .vStr "agent_start"),
     ("autonomy_mode", .vStr "Supervised")],
    "2025-11-19 23:03:58.159 [info] [agent-controller] Triggered new agent: spec-generation (autonomyMode=Supervised)",
    "k.log"⟩, rfl, rfl, rfl⟩

/-! ## Peak-window lemmas (ActivityPatternCalculator) -/

theorem hour_floor_le (t : Int) : hour_floor t ≤ t := by
  have h := Int.emod_nonneg t (by decide : hourUs ≠ 0)
  rw [Int.emod_def] at h
  unfold hour_floor
  omega

theorem minKeyEntry_mem (m : LogEntry) (l : List LogEntry) :
    minKeyEntry m l ∈ m :: l := by
  induction l generalizing m with
  | nil => simp [minKeyEntry]
  | cons e es ih =>
      unfold minKeyEntry
      rcases List.mem_cons.mp (ih (if entryKey e < entryKey m then e else m)) with h1 | h1
      · rw [h1]
        by_cases hc : entryKey e < entryKey m
        · rw [if_pos hc]
          exact List.mem_cons_of_mem _ (List.mem_cons_self _ _)
        · rw [if_neg hc]
          exact List.mem_cons_self _ _
      · exact List.mem_cons_of_mem _ (List.mem_cons_of_mem _ h1)

theorem minKeyEntry_le (m : LogEntry) (l : List LogEntry) :
    ∀ x ∈ m :: l, entryKey (minKeyEntry m l) ≤ entryKey x := by
  induction l generalizing m with
  | nil =>
      intro x hx
      rcases List.mem_cons.mp hx with h1 | h1
      · subst h1
        unfold minKeyEntry
        exact le_refl _
      · simp at h1
  | cons e es ih =>
      intro x hx
      unfold minKeyEntry
      have ihh := ih (if entryKey e < entryKey m then e else m)
      rcases List.mem_cons.mp hx with h1 | h1
      · subst h1
        have h2 : entryKey (if entryKey e < entryKey x then e else x) ≤ entryKey x := by
          by_cases hc : entryKey e < entryKey x
          · rw [if_pos hc]
            exact le_of_lt hc
          · rw [if_neg hc]
        exact le_trans (ihh _ (List.mem_cons_self _ _)) h2
      · rcases List.mem_cons.mp h1 with h2 | h2
        · subst h2
          have h3 : entryKey (if entryKey x < entryKey m then x else m) ≤ entryKey x := by
            by_cases hc : entryKey x < entryKey m
            · rw [if_pos hc]
            · rw [if_neg hc]
              exact le_of_not_lt hc
          exact le_trans (ihh _ (List.mem_cons_self _ _)) h3
        · exact ihh x (List.mem_cons_of_mem _ h2)

theorem le_maxKeyW (entries : List LogEntry) (x : LogEntry) (hx : x ∈ entries) :
    entryKey x ≤ maxKeyW entries := by
  cases entries with
  | nil => simp at hx
  | cons e es =>
      rcases List.mem_cons.mp hx with h1 | h1
      · subst h1
        exact le_foldMax _ _ _ (List.mem_cons_self _ _)
      · exact le_foldMax _ _ _ (List.mem_cons_of_mem _ (List.mem_map_of_mem entryKey h1))

theorem anchor_le_key (entries : List LogEntry) (x : LogEntry) (hx : x ∈ entries) :
    anchor entries ≤ entryKey x := by
  cases entries with
  | nil => simp at hx
  | cons e es =>
      have h1 : entryKey (minKeyEntry e es) ≤ entryKey x := minKeyEntry_le e es x hx
      have h2 : anchor (e :: es) ≤ entryKey (minKeyEntry e es) := by
        have h3 := hour_floor_le (minKeyEntry e es).timestamp.wall
        unfold anchor anchorDT pyDTKey entryKey
        simp only []
        unfold pyDTKey
        omega
      exact le_trans h2 h1

theorem grid_mem_window_starts (entries : List LogEntry) (t : Int)
    (hne : entries ≠ [])
    (h1 : anchor entries ≤ t) (h2 : t ≤ maxKeyW entries) :
    anchor entries + hourUs * ((t - anchor entries) / hourUs) ∈ window_starts entries := by
  cases entries with
  | nil => exact absurd rfl hne
  | cons e es =>
      unfold window_starts
      simp only [List.mem_map, List.mem_range]
      refine ⟨((t - anchor (e :: es)) / hourUs).toNat, ?_, ?_⟩
      · unfold hourUs
        omega
      · unfold hourUs
        omega

theorem count_window_full (B : List LogEntry) (s : Int)
    (h : ∀ b ∈ B, s ≤ entryKey b ∧ entryKey b < s + 2 * hourUs) :
    count_window B s = B.length := by
  unfold count_window
  rw [List.filter_eq_self.mpr]
  intro a ha
  simp only [Bool.and_eq_true, decide_eq_true_eq]
  exact h a ha

theorem count_window_sublist {B entries : List LogEntry}
    (hsub : B.Sublist entries) (s : Int) :
    count_window B s ≤ count_window entries s :=
  (hsub.filter _).length_le

/-- C9 (amended): activity-pattern peak detection. When the entries'
timestamps are uniformly naive or uniformly aware (a naive/aware mix makes
the sorting step raise TypeError and no windows are returned), and the list
contains a burst of 10 entries within a single hour (a sublist B whose
timestamp keys span less than one hour), and no candidate 2-hour window
that misses part of the burst reaches 10 entries, then the top-1 window
returned by _identify_peak_periods is a 2-hour window containing the
entire burst — timestamps compared as Python compares datetimes (wall
clock when naive, UTC-adjusted instant when aware). -/
theorem claim_C9 (entries B : List LogEntry) (lo : Int)
    (hcomp : sameAwareness entries = true)
    (hsub : B.Sublist entries) (hlen : B.length = 10)
    (hburst : ∀ b ∈ B, lo ≤ entryKey b ∧ entryKey b < lo + hourUs)
    (hiso : ∀ s ∈ window_starts entries,
        (¬ ∀ b ∈ B, s ≤ entryKey b ∧ entryKey b < s + 2 * hourUs) →
        count_window entries s < 10) :
    ∃ ps startDt endDt,
      identify_peak_periods entries = some ps ∧
      ps.head? = some (startDt, endDt) ∧
      endDt = ⟨startDt.wall + 2 * hourUs, startDt.tz⟩ ∧
      ∀ b ∈ B, pyDTKey startDt ≤ entryKey b ∧ entryKey b < pyDTKey startDt + 2 * hourUs := by
  rcases B with _ | ⟨b0, bs⟩
  · simp at hlen
  set minB := foldMin (entryKey b0) (bs.map entryKey) with hminB
  have hminB_mem : ∃ bm ∈ b0 :: bs, entryKey bm = minB := by
    have h := foldMin_mem (entryKey b0) (bs.map entryKey)
    rcases List.mem_cons.mp h with h1 | h1
    · exact ⟨b0, List.mem_cons_self _ _, h1.symm⟩
    · rcases List.mem_map.mp h1 with ⟨bm, hbm, he⟩
      exact ⟨bm, List.mem_cons_of_mem _ hbm, he⟩
  obtain ⟨bm, hbm_mem, hbm_eq⟩ := hminB_mem
  have hminB_le : ∀ b ∈ b0 :: bs, minB ≤ entryKey b := by
    intro b hb
    rcases List.mem_cons.mp hb with h1 | h1
    · rw [h1]
      exact foldMin_le _ _ _ (List.mem_cons_self _ _)
    · exact foldMin_le _ _ _ (List.mem_cons_of_mem _ (List.mem_map_of_mem entryKey h1))
  have hne : entries ≠ [] := by
    intro h
    rw [h, List.sublist_nil] at hsub
    cases hsub
  have hbm_entries : bm ∈ entries := hsub.subset hbm_mem
  have ha0 : anchor entries ≤ minB := by
    rw [← hbm_eq]
    exact anchor_le_key entries bm hbm_entries
  have hmaxB : minB ≤ maxKeyW entries := by
    rw [← hbm_eq]
    exact le_maxKeyW entries bm hbm_entries
  set sStar := anchor entries + hourUs * ((minB - anchor entries) / hourUs) with hsStar
  have hfl1 : sStar ≤ minB := by
    rw [hsStar]
    unfold hourUs
    omega
  have hfl2 : minB < sStar + hourUs := by
    rw [hsStar]
    unfold hourUs
    omega
  have hcontain : ∀ b ∈ b0 :: bs, sStar ≤ entryKey b ∧ entryKey b < sStar + 2 * hourUs := by
    intro b hb
    have h1 := hminB_le b hb
    have h2 := (hburst b hb).2
    have h3 := (hburst bm hbm_mem).1
    rw [hbm_eq] at h3
    omega
  have hs_mem : sStar ∈ window_starts entries := by
    rw [hsStar]
    exact grid_mem_window_starts entries minB hne ha0 hmaxB
  have hcount : 10 ≤ count_window entries sStar := by
    have h1 : count_window (b0 :: bs) sStar = 10 := by
      rw [count_window_full _ _ hcontain, hlen]
    exact h1 ▸ count_window_sublist hsub sStar
  have hmem_wc :
      (⟨sStar + ((anchorDT entries).tz.getD 0) * 1000000, (anchorDT entries).tz⟩,
       ⟨sStar + ((anchorDT entries).tz.getD 0) * 1000000 + 2 * hourUs,
         (anchorDT entries).tz⟩,
       count_window entries sStar) ∈ window_counts entries := by
    unfold window_counts
    apply List.mem_filterMap.mpr
    refine ⟨sStar, hs_mem, ?_⟩
    simp only []
    rw [if_pos (by omega : 0 < count_window entries sStar)]
  set cmp := fun a b : PyDateTime × PyDateTime × Nat => decide (b.2.2 ≤ a.2.2) with hcmp
  have htrans : ∀ a b c : PyDateTime × PyDateTime × Nat,
      cmp a b = true → cmp b c = true → cmp a c = true := by
    intro a b c hab hbc
    simp only [hcmp, decide_eq_true_eq] at *
    exact le_trans hbc hab
  have htotal : ∀ a b : PyDateTime × PyDateTime × Nat, (cmp a b || cmp b a) = true := by
    intro a b
    simp only [hcmp, Bool.or_eq_true, decide_eq_true_eq]
    exact Nat.le_total b.2.2 a.2.2
  have hperm := List.mergeSort_perm (window_counts entries) cmp
  have hsorted := @List.sorted_mergeSort _ cmp htrans htotal (window_counts entries)
  rcases hms : (window_counts entries).mergeSort cmp with _ | ⟨w, tail⟩
  · have hmem := (hperm.mem_iff).mpr hmem_wc
    rw [hms] at hmem
    simp at hmem
  · have hw_mem_wc : w ∈ window_counts entries := by
      have hmem : w ∈ (window_counts entries).mergeSort cmp := by
        rw [hms]
        exact List.mem_cons_self _ _
      exact (hperm.mem_iff).mp hmem
    have hcand :
        (⟨sStar + ((anchorDT entries).tz.getD 0) * 1000000, (anchorDT entries).tz⟩,
         ⟨sStar + ((anchorDT entries).tz.getD 0) * 1000000 + 2 * hourUs,
           (anchorDT entries).tz⟩,
         count_window entries sStar)
        ∈ (window_counts entries).mergeSort cmp := (hperm.mem_iff).mpr hmem_wc
    have hw_ge : 10 ≤ w.2.2 := by
      rw [hms] at hcand
      rcases List.mem_cons.mp hcand with h1 | h1
      · rw [← h1]
        exact hcount
      · rw [hms] at hsorted
        have hp := (List.pairwise_cons.mp hsorted).1 _ h1
        simp only [hcmp, decide_eq_true_eq] at hp
        exact le_trans hcount hp
    obtain ⟨sH, hsH_mem, hsH_eq⟩ := List.mem_filterMap.mp hw_mem_wc
    have hw_eq : w =
        (⟨sH + ((anchorDT entries).tz.getD 0) * 1000000, (anchorDT entries).tz⟩,
         ⟨sH + ((anchorDT entries).tz.getD 0) * 1000000 + 2 * hourUs,
           (anchorDT entries).tz⟩,
         count_window entries sH) := by
      by_cases hc : 0 < count_window entries sH
      · rw [if_pos hc] at hsH_eq
        exact (Option.some.inj hsH_eq).symm
      · rw [if_neg hc] at hsH_eq
        cases hsH_eq
    have hfull : ∀ b ∈ b0 :: bs, sH ≤ entryKey b ∧ entryKey b < sH + 2 * hourUs := by
      by_contra hnc
      have hlt := hiso sH hsH_mem hnc
      rw [hw_eq] at hw_ge
      simp only [] at hw_ge
      omega
    refine ⟨((w :: tail).take 3).map (fun w => (w.1, w.2.1)),
      ⟨sH + ((anchorDT entries).tz.getD 0) * 1000000, (anchorDT entries).tz⟩,
      ⟨sH + ((anchorDT entries).tz.getD 0) * 1000000 + 2 * hourUs,
        (anchorDT entries).tz⟩, ?_, ?_, rfl, ?_⟩
    · unfold identify_peak_periods
      rw [hcomp, if_pos rfl, ← hcmp, hms]
    · rw [hw_eq]
      rfl
    · intro b hb
      have hc := hfull b hb
      unfold pyDTKey
      simp only []
      omega

/-- Witness for C9: ten naive events inside the first hour plus one isolated
naive event five hours later; the top-1 window contains all ten. -/
theorem claim_C9_witness :
    ∃ ps startDt endDt,
      identify_peak_periods
        ([mkEntry 0 none "x" [], mkEntry 60000000 none "x" [],
          mkEntry 120000000 none "x" [], mkEntry 180000000 none "x" [],
          mkEntry 240000000 none "x" [], mkEntry 300000000 none "x" [],
          mkEntry 360000000 none "x" [], mkEntry 420000000 none "x" [],
          mkEntry 480000000 none "x" [], mkEntry 540000000 none "x" []] ++
         [mkEntry 18000000000 none "x" []]) = some ps ∧
      ps.head? = some (startDt, endDt) ∧
      endDt = ⟨startDt.wall + 2 * hourUs, startDt.tz⟩ ∧
      ∀ b ∈ [mkEntry 0 none "x" [], mkEntry 60000000 none "x" [],
          mkEntry 120000000 none "x" [], mkEntry 180000000 none "x" [],
          mkEntry 240000000 none "x" [], mkEntry 300000000 none "x" [],
          mkEntry 360000000 none "x" [], mkEntry 420000000 none "x" [],
          mkEntry 480000000 none "x" [], mkEntry 540000000 none "x" []],
        pyDTKey startDt ≤ entryKey b ∧ entryKey b < pyDTKey startDt + 2 * hourUs :=
  claim_C9 _ _ 0 (by decide) (List.sublist_append_left _ _) rfl (by decide) (by decide)

/-- Counterexample for C9 as originally stated: an entry list satisfying
every premise of the claim — a 10-entry burst inside one hour, all other
events isolated, no other candidate 2-hour window reaching 10 — but mixing
one timezone-aware timestamp among naive ones. The source's
sorted(entries, key=timestamp) raises TypeError on the naive/aware
comparison, the exception is caught at the aggregation level, and no peak
window is returned at all, so no top-1 window contains the burst. -/
theorem claim_C9_counterexample :
    ([mkEntry 0 none "x" [], mkEntry 60000000 none "x" [],
      mkEntry 120000000 none "x" [], mkEntry 180000000 none "x" [],
      mkEntry 240000000 none "x" [], mkEntry 300000000 none "x" [],
      mkEntry 360000000 none "x" [], mkEntry 420000000 none "x" [],
      mkEntry 480000000 none "x" [], mkEntry 540000000 none "x" []].Sublist
      ([mkEntry 0 none "x" [], mkEntry 60000000 none "x" [],
        mkEntry 120000000 none "x" [], mkEntry 180000000 none "x" [],
        mkEntry 240000000 none "x" [], mkEntry 300000000 none "x" [],
        mkEntry 360000000 none "x" [], mkEntry 420000000 none "x" [],
        mkEntry 480000000 none "x" [], mkEntry 540000000 none "x" []] ++
       [mkEntry 18000000000 (some 0) "x" []])) ∧
    ([mkEntry 0 none "x" [], mkEntry 60000000 none "x" [],
      mkEntry 120000000 none "x" [], mkEntry 180000000 none "x" [],
      mkEntry 240000000 none "x" [], mkEntry 300000000 none "x" [],
      mkEntry 360000000 none "x" [], mkEntry 420000000 none "x" [],
      mkEntry 480000000 none "x" [], mkEntry 540000000 none "x" []].length = 10) ∧
    (∀ b ∈ [mkEntry 0 none "x" [], mkEntry 60000000 none "x" [],
        mkEntry 120000000 none "x" [], mkEntry 180000000 none "x" [],
        mkEntry 240000000 none "x" [], mkEntry 300000000 none "x" [],
        mkEntry 360000000 none "x" [], mkEntry 420000000 none "x" [],
        mkEntry 480000000 none "x" [], mkEntry 540000000 none "x" []],
      (0 : Int) ≤ entryKey b ∧ entryKey b < 0 + hourUs) ∧
    (∀ s ∈ window_starts
        ([mkEntry 0 none "x" [], mkEntry 60000000 none "x" [],
          mkEntry 120000000 none "x" [], mkEntry 180000000 none "x" [],
          mkEntry 240000000 none "x" [], mkEntry 300000000 none "x" [],
          mkEntry 360000000 none "x" [], mkEntry 420000000 none "x" [],
          mkEntry 480000000 none "x" [], mkEntry 540000000 none "x" []] ++
         [mkEntry 18000000000 (some 0) "x" []]),
      (¬ ∀ b ∈ [mkEntry 0 none "x" [], mkEntry 60000000 none "x" [],
          mkEntry 120000000 none "x" [], mkEntry 180000000 none "x" [],
          mkEntry 240000000 none "x" [], mkEntry 300000000 none "x" [],
          mkEntry 360000000 none "x" [], mkEntry 420000000 none "x" [],
          mkEntry 480000000 none "x" [], mkEntry 540000000 none "x" []],
          s ≤ entryKey b ∧ entryKey b < s + 2 * hourUs) →
      count_window
        ([mkEntry 0 none "x" [], mkEntry 60000000 none "x" [],
          mkEntry 120000000 none "x" [], mkEntry 180000000 none "x" [],
          mkEntry 240000000 none "x" [], mkEntry 300000000 none "x" [],
          mkEntry 360000000 none "x" [], mkEntry 420000000 none "x" [],
          mkEntry 480000000 none "x" [], mkEntry 540000000 none "x" []] ++
         [mkEntry 18000000000 (some 0) "x" []]) s < 10) ∧
    identify_peak_periods
      ([mkEntry 0 none "x" [], mkEntry 60000000 none "x" [],
        mkEntry 120000000 none "x" [], mkEntry 180000000 none "x" [],
        mkEntry 240000000 none "x" [], mkEntry 300000000 none "x" [],
        mkEntry 360000000 none "x" [], mkEntry 420000000 none "x" [],
        mkEntry 480000000 none "x" [], mkEntry 540000000 none "x" []] ++
       [mkEntry 18000000000 (some 0) "x" []]) = none :=
  ⟨List.sublist_append_left _ _, rfl, by decide, by decide, rfl⟩
